import Mathlib

/-! Shallow embedding of the tool registry of the mcp-server-template
repository: the class ToolManager of src/manager/tool-manager.ts, together
with the toolCanBeEnabled mode gate of the bundled McpServer variant.
JS Map is modelled as an insertion-ordered association list whose set
operation replaces in place; JS Set as an insertion-ordered duplicate-free
list. JSON serialisation of the meta-tool snapshots is abstracted to the
structured payload being serialised, and zodToJsonSchema to a constructor
remembering the zod schema it renders. Callbacks registered through
onEnabledToolsChanged are identified by numeric ids; a run of the
notification machinery is modelled as the list of (callback id, payload)
events it emits. -/

namespace Mcp

/-- JS Map.get on an insertion-ordered association list. -/
def mapGet {α : Type} (m : List (String × α)) (k : String) : Option α :=
  match m with
  | [] => none
  | (k', v) :: rest => if k' = k then some v else mapGet rest k

/-- JS Map.set: replace in place when the key exists, append otherwise. -/
def mapSet {α : Type} (m : List (String × α)) (k : String) (v : α) :
    List (String × α) :=
  match m with
  | [] => [(k, v)]
  | (k', v') :: rest =>
    if k' = k then (k, v) :: rest else (k', v') :: mapSet rest k v

/-- JS Set.add: append when absent. -/
def jsSetAdd {α : Type} [DecidableEq α] (s : List α) (x : α) : List α :=
  if x ∈ s then s else s ++ [x]

/-- JS Set.delete. -/
def jsSetDelete {α : Type} [DecidableEq α] (s : List α) (x : α) : List α :=
  s.filter (fun y => decide (y ≠ x))

/-- Whether pat occurs at the head of s. -/
def startsWithList : List Char → List Char → Bool
  | _, [] => true
  | [], _ :: _ => false
  | c :: cs, p :: ps => c == p && startsWithList cs ps

/-- First-occurrence substring removal: the semantics of the JS call
str.replace(pat, emptyStr) for a plain string pattern and empty replacement. -/
def removeFirstAux (pat : List Char) : List Char → List Char
  | [] => []
  | c :: rest =>
    if startsWithList (c :: rest) pat then (c :: rest).drop pat.length
    else c :: removeFirstAux pat rest

def removeFirst (s pat : String) : String :=
  String.mk (removeFirstAux pat.data s.data)

/-- Source method toInternalToolName: strips the first occurrence of the
serverName plus double colon from the name. -/
def toInternalToolName (serverName name : String) : String :=
  removeFirst name (serverName ++ "::")

/-- Source method toExternalToolName. -/
def toExposedToolName (serverName name : String) : String :=
  serverName ++ "::" ++ name

/-- Source method toExternalToolDescription. -/
def toExposedToolDescription (serverName description : String) : String :=
  "[" ++ serverName ++ "] " ++ description

inductive ToolMode where
  | readOnly
  | readWrite
  deriving DecidableEq

structure ToolsetConfig where
  mode : ToolMode
  deriving DecidableEq

structure DynamicToolDiscoveryOptions where
  enabled : Bool
  availableToolsets : List String
  defaultEnabledToolsets : Option (List String)
  deriving DecidableEq

structure ToolAnnotations where
  title : Option String
  readOnlyHint : Option Bool
  destructiveHint : Option Bool
  idempotentHint : Option Bool
  openWorldHint : Option Bool
  deriving DecidableEq

inductive TriggerAction where
  | enable
  | disable
  deriving DecidableEq

structure ToolsetEntry where
  name : String
  trigger : TriggerAction
  deriving DecidableEq

/-- Arguments passed to a tool call: either the trigger meta-tool payload or
an opaque other object. -/
inductive Args where
  | toolsetsArg (toolsets : List ToolsetEntry)
  | otherArg (tag : Nat)
  deriving DecidableEq

/-- A zod input schema: the empty object schema of the list meta-tool, the
refined toolsets schema of the trigger meta-tool (whose refinement reads the
registry state at validation time), or a generic validator returning an
optional diagnostic. -/
inductive InputSchema where
  | emptyObj
  | triggerSchema
  | validator (check : Args → Option String)

structure ToolDefinition where
  name : String
  description : String
  inputSchema : InputSchema
  annotations : Option ToolAnnotations

structure Snapshot where
  available : List String
  enabled : List String
  deriving DecidableEq

inductive ToolResult where
  | snapshotResult (s : Snapshot)
  | textResult (t : String)
  deriving DecidableEq

/-- A tool handler: a plain handler (not touching the registry), or one of
the two meta-tool closures made by the constructor. -/
inductive Handler where
  | pure (f : Args → Except String ToolResult)
  | dynamicList
  | dynamicTrigger

def Handler.isDynamicTrigger : Handler → Bool
  | .dynamicTrigger => true
  | _ => false

def InputSchema.isTriggerSchema : InputSchema → Bool
  | .triggerSchema => true
  | _ => false

structure ToolCapability where
  definition : ToolDefinition
  handler : Handler

/-- zodToJsonSchema abstracted: remembers which zod schema it renders. -/
inductive RenderedSchema where
  | render (s : InputSchema)

structure ToolListEntry where
  name : String
  description : String
  inputSchema : RenderedSchema
  annotations : Option ToolAnnotations

structure ToolListResponse where
  tools : List ToolListEntry

structure ToolManager where
  mcpServerName : String
  toolsCapabilities : List ToolCapability
  toolsetConfig : ToolsetConfig
  dynamicToolDiscovery : Option DynamicToolDiscoveryOptions
  tools : List (String × ToolCapability)
  enabledTools : List String
  enabledToolSubscriptions : List Nat

def dynamicToolListName : String := "dynamic_tool_list"

def dynamicToolTriggerName : String := "dynamic_tool_trigger"

def dynamicToolListCapability : ToolCapability :=
  { definition :=
      { name := dynamicToolListName
        description := "List, enable, or disable available tools dynamically."
        inputSchema := InputSchema.emptyObj
        annotations := some
          { title := some "Dynamic Tool Discovery"
            readOnlyHint := some true
            destructiveHint := some false
            idempotentHint := some true
            openWorldHint := some false } }
    handler := Handler.dynamicList }

def dynamicToolTriggerCapability : ToolCapability :=
  { definition :=
      { name := dynamicToolTriggerName
        description := "Enable or disable multiple toolsets."
        inputSchema := InputSchema.triggerSchema
        annotations := some
          { title := some "Dynamic Tool Trigger"
            readOnlyHint := some false
            destructiveHint := some false
            idempotentHint := some true
            openWorldHint := some false } }
    handler := Handler.dynamicTrigger }

def dynEnabled (d : Option DynamicToolDiscoveryOptions) : Bool :=
  match d with
  | some d => d.enabled
  | none => false

/-- The registration loop of the constructor: tools.set for each capability,
keyed by its definition name. -/
def registerTools (caps : List ToolCapability) : List (String × ToolCapability) :=
  caps.foldl (fun m c => mapSet m c.definition.name c) []

/-- The ToolManager constructor. -/
def ToolManager.make (mcpServerName : String)
    (toolsCapabilities : List ToolCapability) (toolsetConfig : ToolsetConfig)
    (dynamicToolDiscovery : Option DynamicToolDiscoveryOptions) : ToolManager :=
  let tools0 := registerTools toolsCapabilities
  let enabled0 :=
    if dynEnabled dynamicToolDiscovery then
      ((dynamicToolDiscovery.bind (fun d => d.defaultEnabledToolsets)).getD []).foldl
        (fun en toolName =>
          if (mapGet tools0 toolName).isSome then jsSetAdd en toolName else en) []
    else
      tools0.foldl
        (fun en p =>
          if toolsetConfig.mode = ToolMode.readOnly then jsSetAdd en p.1 else en) []
  if dynEnabled dynamicToolDiscovery then
    let tools1 := mapSet tools0 dynamicToolListName dynamicToolListCapability
    let enabled1 := jsSetAdd enabled0 dynamicToolListName
    let tools2 := mapSet tools1 dynamicToolTriggerName dynamicToolTriggerCapability
    let enabled2 := jsSetAdd enabled1 dynamicToolTriggerName
    { mcpServerName, toolsCapabilities, toolsetConfig, dynamicToolDiscovery,
      tools := tools2, enabledTools := enabled2, enabledToolSubscriptions := [] }
  else
    { mcpServerName, toolsCapabilities, toolsetConfig, dynamicToolDiscovery,
      tools := tools0, enabledTools := enabled0, enabledToolSubscriptions := [] }

def ToolManager.listTools (st : ToolManager) : ToolListResponse :=
  { tools :=
      ((st.tools.filter (fun p => decide (p.1 ∈ st.enabledTools))).map (fun p =>
          ({ name := p.2.definition.name
             description := p.2.definition.description
             inputSchema := RenderedSchema.render p.2.definition.inputSchema
             annotations := p.2.definition.annotations.map (fun a =>
               { a with title := some (toExposedToolDescription st.mcpServerName
                   p.2.definition.description) }) } : ToolListEntry))).map
        (fun t =>
          { t with
            name := toExposedToolName st.mcpServerName t.name
            description := toExposedToolDescription st.mcpServerName t.description }) }

/-- The available and enabled name lists returned by both meta-tools. -/
def snapshotOf (st : ToolManager) : Snapshot :=
  { available := st.tools.map (fun p => toExposedToolName st.mcpServerName p.1)
    enabled := st.enabledTools.map (fun n => toExposedToolName st.mcpServerName n) }

/-- The refinement of the trigger schema on a single toolset name. -/
def validToolsetName (st : ToolManager) (name : String) : Bool :=
  let internal := toInternalToolName st.mcpServerName name
  match mapGet st.tools internal with
  | some cap => cap.definition.name == internal
  | none => false

/-- safeParse of a zod input schema against the given registry state. -/
def validateArgs (st : ToolManager) (schema : InputSchema) (args : Args) :
    Except String Unit :=
  match schema with
  | InputSchema.emptyObj => Except.ok ()
  | InputSchema.triggerSchema =>
    match args with
    | Args.toolsetsArg entries =>
      if entries.all (fun e => validToolsetName st e.name) then Except.ok ()
      else Except.error "Invalid toolset name"
    | Args.otherArg _ => Except.error "Required"
  | InputSchema.validator check =>
    match check args with
    | none => Except.ok ()
    | some diag => Except.error diag

/-- One step of the trigger meta-tool loop. -/
def applyToolset (serverName : String) (en : List String) (e : ToolsetEntry) :
    List String :=
  match e.trigger with
  | TriggerAction.enable => jsSetAdd en (toInternalToolName serverName e.name)
  | TriggerAction.disable => jsSetDelete en (toInternalToolName serverName e.name)

/-- The trigger meta-tool loop over the whole batch, in array order. -/
def applyToolsets (serverName : String) (en : List String)
    (entries : List ToolsetEntry) : List String :=
  entries.foldl (applyToolset serverName) en

def ToolManager.applyTrigger (st : ToolManager) (entries : List ToolsetEntry) :
    ToolManager :=
  { st with enabledTools := applyToolsets st.mcpServerName st.enabledTools entries }

/-- Source method notifyEnabledToolsChanged: one event per subscribed
callback, each carrying the current listTools payload. -/
def ToolManager.notifyEnabledToolsChanged (st : ToolManager) :
    List (Nat × ToolListResponse) :=
  st.enabledToolSubscriptions.map (fun cb => (cb, st.listTools))

inductive McpErrorCode where
  | MethodNotFound
  | InvalidParams
  | InternalError
  deriving DecidableEq

structure McpError where
  code : McpErrorCode
  message : String
  deriving DecidableEq

structure CallRequest where
  name : String
  arguments : Option Args
  deriving DecidableEq

/-- Outcome of callTool: a success with the handler result and the emitted
notification events, a thrown McpError, or an error raised by the handler
itself (propagated unwrapped). -/
inductive CallOutcome where
  | success (result : ToolResult) (events : List (Nat × ToolListResponse))
  | registryError (e : McpError)
  | handlerRaised (e : String)

def ToolManager.runHandler (st : ToolManager) (cap : ToolCapability)
    (args : Args) : ToolManager × CallOutcome :=
  match cap.handler with
  | Handler.pure f =>
    match f args with
    | Except.ok r => (st, CallOutcome.success r [])
    | Except.error e => (st, CallOutcome.handlerRaised e)
  | Handler.dynamicList =>
    (st, CallOutcome.success (ToolResult.snapshotResult (snapshotOf st)) [])
  | Handler.dynamicTrigger =>
    match args with
    | Args.toolsetsArg entries =>
      let st' := st.applyTrigger entries
      (st', CallOutcome.success (ToolResult.snapshotResult (snapshotOf st'))
        st'.notifyEnabledToolsChanged)
    | Args.otherArg _ =>
      (st, CallOutcome.handlerRaised "TypeError: toolsets is not iterable")

/-- Source method callTool. A throw leaves the registry state unchanged, so
every failure returns the input state. -/
def ToolManager.callTool (st : ToolManager) (request : CallRequest) :
    ToolManager × CallOutcome :=
  let toolName := toInternalToolName st.mcpServerName request.name
  match mapGet st.tools toolName with
  | none =>
    (st, CallOutcome.registryError
      { code := McpErrorCode.MethodNotFound
        message := "Unknown tool: " ++ request.name })
  | some toolCapability =>
    if toolName ∈ st.enabledTools then
      match request.arguments with
      | none =>
        (st, CallOutcome.registryError
          { code := McpErrorCode.InvalidParams
            message := "Invalid parameters: undefined" })
      | some args =>
        match validateArgs st toolCapability.definition.inputSchema args with
        | Except.error diag =>
          (st, CallOutcome.registryError
            { code := McpErrorCode.InvalidParams
              message := "Invalid parameters: " ++ diag })
        | Except.ok _ => st.runHandler toolCapability args
    else
      (st, CallOutcome.registryError
        { code := McpErrorCode.MethodNotFound
          message := "Tool not enabled: " ++ request.name })

def ToolManager.onEnabledToolsChanged (st : ToolManager) (callback : Nat) :
    ToolManager :=
  { st with enabledToolSubscriptions := jsSetAdd st.enabledToolSubscriptions callback }

def ToolManager.offEnabledToolsChanged (st : ToolManager) (callback : Nat) :
    ToolManager :=
  { st with enabledToolSubscriptions := jsSetDelete st.enabledToolSubscriptions callback }

def ToolManager.dynamicToolDiscoveryEnabled (st : ToolManager) : Bool :=
  dynEnabled st.dynamicToolDiscovery

def ToolManager.setMcpServerName (st : ToolManager) (name : String) :
    ToolManager × List (Nat × ToolListResponse) :=
  let st' := { st with mcpServerName := name }
  (st', if st'.dynamicToolDiscoveryEnabled then st'.notifyEnabledToolsChanged else [])

def ToolManager.hasTools (st : ToolManager) : Bool :=
  decide (0 < st.tools.length)

/-- The mode gate toolCanBeEnabled of the bundled McpServer variant: in
readOnly mode a tool can be enabled exactly when its readOnlyHint is true; in
readWrite mode always. -/
def toolCanBeEnabled (tool : ToolDefinition) (toolsetConfig : ToolsetConfig) :
    Bool :=
  match toolsetConfig.mode with
  | ToolMode.readOnly =>
    match tool.annotations with
    | some a => a.readOnlyHint == some true
    | none => false
  | ToolMode.readWrite => true

/-- Sample capability flagged read-only, used in concrete scenarios. -/
def echoCapability : ToolCapability :=
  { definition :=
      { name := "echo"
        description := "Echoes its input."
        inputSchema := InputSchema.emptyObj
        annotations := some
          { title := none, readOnlyHint := some true, destructiveHint := some false,
            idempotentHint := some true, openWorldHint := some false } }
    handler := Handler.pure (fun _ => Except.ok (ToolResult.textResult "echo")) }

/-- Sample capability flagged non-read-only, used in concrete scenarios. -/
def deleteCapability : ToolCapability :=
  { definition :=
      { name := "delete"
        description := "Deletes a record."
        inputSchema := InputSchema.emptyObj
        annotations := some
          { title := none, readOnlyHint := some false, destructiveHint := some true,
            idempotentHint := some false, openWorldHint := some false } }
    handler := Handler.pure (fun _ => Except.ok (ToolResult.textResult "deleted")) }

/-- The enabled-set only holds keys of the mapping. -/
def enabledSubset (st : ToolManager) : Prop :=
  ∀ n ∈ st.enabledTools, (mapGet st.tools n).isSome = true

/-- Every capability whose handler is the trigger closure carries the
trigger schema; this pairing is set up by the constructor and is what the
schema refinement of the trigger meta-tool relies on. -/
def metaHandlersWF (st : ToolManager) : Prop :=
  ∀ p ∈ st.tools, p.2.handler.isDynamicTrigger = true →
    p.2.definition.inputSchema.isTriggerSchema = true

/-- Sample capability with a validating schema. -/
def guardCapability : ToolCapability :=
  { definition :=
      { name := "guard"
        description := "Accepts only the zero object."
        inputSchema := InputSchema.validator (fun args =>
          match args with
          | Args.otherArg 0 => none
          | _ => some "Expected object")
        annotations := none }
    handler := Handler.pure (fun _ => Except.ok (ToolResult.textResult "guarded")) }

/-- Sample capability whose handler always raises. -/
def failingCapability : ToolCapability :=
  { definition :=
      { name := "failing"
        description := "Always raises."
        inputSchema := InputSchema.emptyObj
        annotations := none }
    handler := Handler.pure (fun _ => Except.error "boom") }

/-- Registry with dynamic discovery enabled and default-enabled echo. -/
def dynState : ToolManager :=
  ToolManager.make "srv" [echoCapability, deleteCapability] ⟨ToolMode.readOnly⟩
    (some { enabled := true, availableToolsets := []
            defaultEnabledToolsets := some ["echo"] })

/-- The dynamic registry with one subscribed callback. -/
def dynStateSub : ToolManager :=
  dynState.onEnabledToolsChanged 7

/-- Registry without dynamic discovery in readOnly mode. -/
def plainState : ToolManager :=
  ToolManager.make "srv" [echoCapability, guardCapability, failingCapability]
    ⟨ToolMode.readOnly⟩ none

/-- Registry without dynamic discovery in readWrite mode: nothing enabled. -/
def lockedState : ToolManager :=
  ToolManager.make "srv" [echoCapability] ⟨ToolMode.readWrite⟩ none

/-- A disable-then-enable batch on the echo tool. -/
def echoToggleBatch : List ToolsetEntry :=
  [{ name := "echo", trigger := TriggerAction.disable },
   { name := "echo", trigger := TriggerAction.enable }]

/-! Basic lemmas about the JS Map and Set models. -/

theorem mem_jsSetAdd {α : Type} [DecidableEq α] (s : List α) (x a : α) :
    a ∈ jsSetAdd s x ↔ a ∈ s ∨ a = x := by
  unfold jsSetAdd
  split
  next h =>
    constructor
    · exact Or.inl
    · rintro (ha | rfl)
      · exact ha
      · exact h
  next h => simp

theorem self_mem_jsSetAdd {α : Type} [DecidableEq α] (s : List α) (x : α) :
    x ∈ jsSetAdd s x :=
  (mem_jsSetAdd s x x).2 (Or.inr rfl)

theorem mem_jsSetDelete {α : Type} [DecidableEq α] (s : List α) (x a : α) :
    a ∈ jsSetDelete s x ↔ a ∈ s ∧ a ≠ x := by
  simp [jsSetDelete]

theorem self_not_mem_jsSetDelete {α : Type} [DecidableEq α] (s : List α) (x : α) :
    x ∉ jsSetDelete s x := by
  simp [mem_jsSetDelete]

theorem jsSetAdd_idem {α : Type} [DecidableEq α] (s : List α) (x : α) :
    jsSetAdd (jsSetAdd s x) x = jsSetAdd s x := by
  have hx : x ∈ jsSetAdd s x := self_mem_jsSetAdd s x
  rw [show jsSetAdd (jsSetAdd s x) x =
    if x ∈ jsSetAdd s x then jsSetAdd s x else jsSetAdd s x ++ [x] from rfl]
  rw [if_pos hx]

theorem jsSetDelete_idem {α : Type} [DecidableEq α] (s : List α) (x : α) :
    jsSetDelete (jsSetDelete s x) x = jsSetDelete s x := by
  induction s with
  | nil => rfl
  | cons a rest ih =>
    by_cases h : a = x
    · simp [jsSetDelete, h] at ih ⊢
    · simp only [jsSetDelete] at ih ⊢
      simp [List.filter, h, ih]

theorem mapGet_mapSet_self {α : Type} (m : List (String × α)) (k : String) (v : α) :
    mapGet (mapSet m k v) k = some v := by
  induction m with
  | nil => simp [mapSet, mapGet]
  | cons p rest ih =>
    obtain ⟨k', v'⟩ := p
    by_cases h : k' = k
    · subst h
      simp [mapSet, mapGet]
    · simp [mapSet, mapGet, h, ih]

theorem mapGet_mapSet_ne {α : Type} (m : List (String × α)) (k0 k : String) (v : α)
    (h : k0 ≠ k) : mapGet (mapSet m k0 v) k = mapGet m k := by
  induction m with
  | nil => simp [mapSet, mapGet, h]
  | cons p rest ih =>
    obtain ⟨k', v'⟩ := p
    by_cases hk : k' = k0
    · subst hk
      simp [mapSet, mapGet, h]
    · simp only [mapSet, if_neg hk]
      by_cases hk2 : k' = k
      · simp [mapGet, hk2]
      · simp [mapGet, hk2, ih]

theorem isSome_mapGet_mapSet {α : Type} (m : List (String × α)) (k0 k : String)
    (v : α) : (mapGet (mapSet m k0 v) k).isSome = true ↔
      k = k0 ∨ (mapGet m k).isSome = true := by
  by_cases h : k = k0
  · subst h
    simp [mapGet_mapSet_self]
  · rw [mapGet_mapSet_ne m k0 k v (fun he => h he.symm)]
    simp [h]

theorem mapGet_mem {α : Type} (m : List (String × α)) (k : String) (v : α)
    (h : mapGet m k = some v) : (k, v) ∈ m := by
  induction m with
  | nil => simp [mapGet] at h
  | cons p rest ih =>
    obtain ⟨k', v'⟩ := p
    by_cases hk : k' = k
    · subst hk
      simp [mapGet] at h
      simp [h]
    · simp only [mapGet, if_neg hk] at h
      exact List.mem_cons_of_mem _ (ih h)

theorem mapGet_isSome_of_mem {α : Type} (m : List (String × α)) (k : String) (v : α)
    (h : (k, v) ∈ m) : (mapGet m k).isSome = true := by
  induction m with
  | nil => simp at h
  | cons p rest ih =>
    obtain ⟨k', v'⟩ := p
    by_cases hk : k' = k
    · subst hk
      simp [mapGet]
    · rcases List.mem_cons.mp h with he | hm
      · injection he with h1 h2
        exact absurd h1.symm hk
      · simp only [mapGet, if_neg hk]
        exact ih hm

theorem mapGet_isSome_iff {α : Type} (m : List (String × α)) (k : String) :
    (mapGet m k).isSome = true ↔ ∃ p ∈ m, p.1 = k := by
  constructor
  · intro h
    obtain ⟨v, hv⟩ := Option.isSome_iff_exists.mp h
    exact ⟨(k, v), mapGet_mem m k v hv, rfl⟩
  · rintro ⟨⟨k', v⟩, hm, rfl⟩
    exact mapGet_isSome_of_mem m k' v hm

theorem mem_mapSet {α : Type} (m : List (String × α)) (k : String) (v : α)
    (p : String × α) (h : p ∈ mapSet m k v) : p = (k, v) ∨ p ∈ m := by
  induction m with
  | nil =>
    simp only [mapSet, List.mem_singleton] at h
    exact Or.inl h
  | cons q rest ih =>
    obtain ⟨k', v'⟩ := q
    by_cases hk : k' = k
    · subst hk
      simp only [mapSet, if_pos rfl] at h
      rcases List.mem_cons.mp h with he | hm
      · exact Or.inl he
      · exact Or.inr (List.mem_cons_of_mem _ hm)
    · simp only [mapSet, if_neg hk] at h
      rcases List.mem_cons.mp h with he | hm
      · exact Or.inr (by simp [he])
      · rcases ih hm with h1 | h1
        · exact Or.inl h1
        · exact Or.inr (List.mem_cons_of_mem _ h1)

/-! Lemmas about the constructor folds. -/

theorem foldl_const {α β : Type} (l : List β) (en : α) :
    l.foldl (fun a _ => a) en = en := by
  induction l generalizing en with
  | nil => rfl
  | cons b rest ih =>
    rw [List.foldl_cons]
    exact ih en

theorem mapGet_isSome_register (caps : List ToolCapability)
    (m0 : List (String × ToolCapability)) (k : String) :
    (mapGet (caps.foldl (fun m c => mapSet m c.definition.name c) m0) k).isSome = true ↔
      (mapGet m0 k).isSome = true ∨ ∃ c ∈ caps, c.definition.name = k := by
  induction caps generalizing m0 with
  | nil => simp
  | cons c rest ih =>
    simp only [List.foldl_cons]
    rw [ih, isSome_mapGet_mapSet]
    simp only [List.mem_cons]
    constructor
    · rintro ((h | h) | ⟨c', hc', hn⟩)
      · exact Or.inr ⟨c, Or.inl rfl, h.symm⟩
      · exact Or.inl h
      · exact Or.inr ⟨c', Or.inr hc', hn⟩
    · rintro (h | ⟨c', (rfl | hc'), hn⟩)
      · exact Or.inl (Or.inr h)
      · exact Or.inl (Or.inl hn.symm)
      · exact Or.inr ⟨c', hc', hn⟩

theorem mem_register (caps : List ToolCapability)
    (m0 : List (String × ToolCapability)) (p : String × ToolCapability)
    (h : p ∈ caps.foldl (fun m c => mapSet m c.definition.name c) m0) :
    p ∈ m0 ∨ p.2 ∈ caps := by
  induction caps generalizing m0 with
  | nil => exact Or.inl h
  | cons c rest ih =>
    simp only [List.foldl_cons] at h
    rcases ih _ h with h1 | h1
    · rcases mem_mapSet _ _ _ _ h1 with h2 | h2
      · exact Or.inr (by simp [h2])
      · exact Or.inl h2
    · exact Or.inr (List.mem_cons_of_mem _ h1)

theorem mem_foldl_enable_keys (l : List (String × ToolCapability))
    (en0 : List String) (n : String) :
    n ∈ l.foldl (fun en p => jsSetAdd en p.1) en0 ↔
      n ∈ en0 ∨ ∃ p ∈ l, p.1 = n := by
  induction l generalizing en0 with
  | nil => simp
  | cons p rest ih =>
    simp only [List.foldl_cons]
    rw [ih, mem_jsSetAdd]
    simp only [List.mem_cons]
    constructor
    · rintro ((h | h) | ⟨q, hq, hn⟩)
      · exact Or.inl h
      · exact Or.inr ⟨p, Or.inl rfl, h.symm⟩
      · exact Or.inr ⟨q, Or.inr hq, hn⟩
    · rintro (h | ⟨q, (rfl | hq), hn⟩)
      · exact Or.inl (Or.inl h)
      · exact Or.inl (Or.inr hn.symm)
      · exact Or.inr ⟨q, hq, hn⟩

theorem mem_foldl_defaults (defs : List String)
    (tools0 : List (String × ToolCapability)) (en0 : List String) (n : String) :
    n ∈ defs.foldl
        (fun en t => if (mapGet tools0 t).isSome then jsSetAdd en t else en) en0 ↔
      n ∈ en0 ∨ (n ∈ defs ∧ (mapGet tools0 n).isSome = true) := by
  induction defs generalizing en0 with
  | nil => simp
  | cons d rest ih =>
    simp only [List.foldl_cons]
    by_cases hd : (mapGet tools0 d).isSome = true
    · rw [if_pos hd, ih, mem_jsSetAdd]
      simp only [List.mem_cons]
      constructor
      · rintro ((h | rfl) | ⟨h1, h2⟩)
        · exact Or.inl h
        · exact Or.inr ⟨Or.inl rfl, hd⟩
        · exact Or.inr ⟨Or.inr h1, h2⟩
      · rintro (h | ⟨(rfl | h1), h2⟩)
        · exact Or.inl (Or.inl h)
        · exact Or.inl (Or.inr rfl)
        · exact Or.inr ⟨h1, h2⟩
    · rw [if_neg hd, ih]
      simp only [List.mem_cons]
      constructor
      · rintro (h | ⟨h1, h2⟩)
        · exact Or.inl h
        · exact Or.inr ⟨Or.inr h1, h2⟩
      · rintro (h | ⟨(rfl | h1), h2⟩)
        · exact Or.inl h
        · exact absurd h2 hd
        · exact Or.inr ⟨h1, h2⟩

/-! String lemmas: the prefix-stripping transform fixes names without a
colon, and the two failure messages of callTool are distinct. -/

theorem startsWithList_mem (pat : List Char) :
    ∀ s : List Char, startsWithList s pat = true → ∀ x ∈ pat, x ∈ s := by
  induction pat with
  | nil => simp
  | cons p ps ih =>
    intro s h x hx
    match s with
    | [] => simp [startsWithList] at h
    | c :: cs =>
      simp only [startsWithList, Bool.and_eq_true, beq_iff_eq] at h
      obtain ⟨rfl, h2⟩ := h
      rcases List.mem_cons.mp hx with rfl | hx
      · exact List.mem_cons_self ..
      · exact List.mem_cons_of_mem _ (ih cs h2 x hx)

theorem removeFirstAux_of_no_colon (pat : List Char) (hc : ':' ∈ pat) :
    ∀ s : List Char, ':' ∉ s → removeFirstAux pat s = s := by
  intro s
  induction s with
  | nil => intro _; rfl
  | cons c rest ih =>
    intro hs
    rw [removeFirstAux]
    rw [if_neg]
    · rw [ih (fun hm => hs (List.mem_cons_of_mem _ hm))]
    · intro h
      exact hs (startsWithList_mem pat _ h ':' hc)

theorem toInternalToolName_no_colon (serverName name : String)
    (h : ':' ∉ name.data) : toInternalToolName serverName name = name := by
  obtain ⟨l⟩ := name
  show String.mk (removeFirstAux (serverName ++ "::").data l) = String.mk l
  have hp : ':' ∈ (serverName ++ "::").data := by
    obtain ⟨m⟩ := serverName
    show ':' ∈ m ++ [':', ':']
    simp
  rw [removeFirstAux_of_no_colon _ hp l h]

theorem toInternalToolName_list :
    ∀ s : String, toInternalToolName s dynamicToolListName = dynamicToolListName :=
  fun s => toInternalToolName_no_colon s dynamicToolListName (by decide)

theorem toInternalToolName_trigger :
    ∀ s : String,
      toInternalToolName s dynamicToolTriggerName = dynamicToolTriggerName :=
  fun s => toInternalToolName_no_colon s dynamicToolTriggerName (by decide)

theorem unknown_ne_notEnabled (n m : String) :
    ("Unknown tool: " ++ n : String) ≠ "Tool not enabled: " ++ m := by
  obtain ⟨ln⟩ := n
  obtain ⟨lm⟩ := m
  intro h
  have hd : "Unknown tool: ".data ++ ln = "Tool not enabled: ".data ++ lm :=
    congrArg String.data h
  injection hd with h1 h2
  exact absurd h1 (by decide)

/-! Lemmas about the constructed registry. -/

theorem registerTools_isSome (caps : List ToolCapability) (n : String) :
    (mapGet (registerTools caps) n).isSome = true ↔
      ∃ c ∈ caps, c.definition.name = n := by
  unfold registerTools
  rw [mapGet_isSome_register]
  simp [mapGet]

theorem keys_registerTools (caps : List ToolCapability) (n : String) :
    (∃ p ∈ registerTools caps, p.1 = n) ↔ ∃ c ∈ caps, c.definition.name = n := by
  rw [← mapGet_isSome_iff, registerTools_isSome]

theorem make_enabled_no_dyn (s : String) (caps : List ToolCapability)
    (cfg : ToolsetConfig) (dyn : Option DynamicToolDiscoveryOptions)
    (hd : dynEnabled dyn = false) (n : String) :
    n ∈ (ToolManager.make s caps cfg dyn).enabledTools ↔
      (cfg.mode = ToolMode.readOnly ∧ ∃ c ∈ caps, c.definition.name = n) := by
  simp only [ToolManager.make, hd, Bool.false_eq_true, if_false]
  cases hmode : cfg.mode with
  | readWrite =>
    simp only [hmode, reduceCtorEq, if_false]
    rw [foldl_const]
    simp
  | readOnly =>
    simp only [hmode, eq_self_iff_true, if_true]
    rw [mem_foldl_enable_keys]
    simp only [List.not_mem_nil, false_or, true_and]
    exact keys_registerTools caps n

theorem make_no_dyn_tools (s : String) (caps : List ToolCapability)
    (cfg : ToolsetConfig) (dyn : Option DynamicToolDiscoveryOptions)
    (hd : dynEnabled dyn = false) :
    (ToolManager.make s caps cfg dyn).tools = registerTools caps := by
  simp only [ToolManager.make, hd, Bool.false_eq_true, if_false]

theorem make_dyn_tools (s : String) (caps : List ToolCapability)
    (cfg : ToolsetConfig) (av : List String) (dopt : Option (List String)) :
    (ToolManager.make s caps cfg (some ⟨true, av, dopt⟩)).tools =
      mapSet (mapSet (registerTools caps) dynamicToolListName
        dynamicToolListCapability) dynamicToolTriggerName
        dynamicToolTriggerCapability := by
  simp [ToolManager.make, dynEnabled]

theorem make_dyn_enabled_iff (s : String) (caps : List ToolCapability)
    (cfg : ToolsetConfig) (av : List String) (dopt : Option (List String))
    (n : String) :
    n ∈ (ToolManager.make s caps cfg (some ⟨true, av, dopt⟩)).enabledTools ↔
      (n ∈ dopt.getD [] ∧ (mapGet (registerTools caps) n).isSome = true) ∨
        n = dynamicToolListName ∨ n = dynamicToolTriggerName := by
  simp only [ToolManager.make, dynEnabled, eq_self_iff_true, if_true,
    Option.bind_some]
  rw [mem_jsSetAdd, mem_jsSetAdd, mem_foldl_defaults]
  simp [or_assoc]

theorem make_dyn_server_name (s : String) (caps : List ToolCapability)
    (cfg : ToolsetConfig) (av : List String) (dopt : Option (List String)) :
    (ToolManager.make s caps cfg (some ⟨true, av, dopt⟩)).mcpServerName = s := by
  simp [ToolManager.make, dynEnabled]

/-! Operational lemmas about validation, the trigger loop and callTool. -/

theorem validToolsetName_isSome (st : ToolManager) (nm : String)
    (h : validToolsetName st nm = true) :
    (mapGet st.tools (toInternalToolName st.mcpServerName nm)).isSome = true := by
  simp only [validToolsetName] at h
  cases hm : mapGet st.tools (toInternalToolName st.mcpServerName nm) with
  | none =>
    rw [hm] at h
    simp at h
  | some cap => simp

theorem applyToolsets_subset (st : ToolManager) :
    ∀ (entries : List ToolsetEntry) (en : List String),
      entries.all (fun e => validToolsetName st e.name) = true →
      (∀ n ∈ en, (mapGet st.tools n).isSome = true) →
      ∀ n ∈ applyToolsets st.mcpServerName en entries,
        (mapGet st.tools n).isSome = true := by
  intro entries
  induction entries with
  | nil =>
    intro en _ hen
    exact hen
  | cons e rest ih =>
    intro en hall hen
    simp only [List.all_cons, Bool.and_eq_true] at hall
    obtain ⟨hv, hrest⟩ := hall
    have hstep : ∀ n ∈ applyToolset st.mcpServerName en e,
        (mapGet st.tools n).isSome = true := by
      intro n hn
      obtain ⟨nm, tr⟩ := e
      cases tr with
      | enable =>
        simp only [applyToolset] at hn
        rcases (mem_jsSetAdd _ _ _).mp hn with h1 | h1
        · exact hen n h1
        · rw [h1]
          exact validToolsetName_isSome st nm hv
      | disable =>
        simp only [applyToolset] at hn
        exact hen n ((mem_jsSetDelete _ _ _).mp hn).1
    exact ih (applyToolset st.mcpServerName en e) hrest hstep

theorem validateArgs_trigger_all (st : ToolManager) (entries : List ToolsetEntry)
    (h : validateArgs st InputSchema.triggerSchema (Args.toolsetsArg entries) =
      Except.ok ()) :
    entries.all (fun e => validToolsetName st e.name) = true := by
  simp only [validateArgs] at h
  by_cases hall : entries.all (fun e => validToolsetName st e.name) = true
  · exact hall
  · rw [if_neg hall] at h
    exact absurd h (by simp)

theorem isTriggerSchema_eq (s : InputSchema) (h : s.isTriggerSchema = true) :
    s = InputSchema.triggerSchema := by
  cases s with
  | emptyObj => simp [InputSchema.isTriggerSchema] at h
  | triggerSchema => rfl
  | validator check => simp [InputSchema.isTriggerSchema] at h

theorem isDynamicTrigger_eq (h : Handler) (hh : h.isDynamicTrigger = true) :
    h = Handler.dynamicTrigger := by
  cases h with
  | pure f => simp [Handler.isDynamicTrigger] at hh
  | dynamicList => simp [Handler.isDynamicTrigger] at hh
  | dynamicTrigger => rfl

/-- Full description of a successful trigger meta-tool invocation through
callTool: the batch is folded over the enabled-set, the notification events
are one per subscribed callback carrying the post-update listTools payload,
and the returned snapshot is taken after the whole batch. -/
theorem callTool_trigger_spec (st : ToolManager) (request : CallRequest)
    (cap : ToolCapability) (entries : List ToolsetEntry)
    (h1 : mapGet st.tools (toInternalToolName st.mcpServerName request.name) =
      some cap)
    (h2 : cap.handler = Handler.dynamicTrigger)
    (h3 : cap.definition.inputSchema = InputSchema.triggerSchema)
    (h4 : toInternalToolName st.mcpServerName request.name ∈ st.enabledTools)
    (h5 : request.arguments = some (Args.toolsetsArg entries))
    (h6 : entries.all (fun e => validToolsetName st e.name) = true) :
    st.callTool request =
      (st.applyTrigger entries,
        CallOutcome.success
          (ToolResult.snapshotResult (snapshotOf (st.applyTrigger entries)))
          ((st.applyTrigger entries).notifyEnabledToolsChanged)) := by
  simp only [ToolManager.callTool, h1, h4, if_true, h5, h3, validateArgs, h6,
    ToolManager.runHandler, h2]

/-- Every callTool invocation either leaves the state unchanged or is a
validated trigger invocation whose final state is the folded batch. -/
theorem callTool_state (st : ToolManager) (request : CallRequest) :
    (st.callTool request).1 = st ∨
    ∃ cap entries,
      mapGet st.tools (toInternalToolName st.mcpServerName request.name) =
        some cap ∧
      cap.handler = Handler.dynamicTrigger ∧
      validateArgs st cap.definition.inputSchema (Args.toolsetsArg entries) =
        Except.ok () ∧
      (st.callTool request).1 = st.applyTrigger entries := by
  simp only [ToolManager.callTool]
  split
  · exact Or.inl rfl
  next cap h1 =>
    split
    next h4 =>
      split
      · exact Or.inl rfl
      next args h5 =>
        split
        next diag hv => exact Or.inl rfl
        next u hv =>
          simp only [ToolManager.runHandler]
          split
          next f h2 =>
            split
            · exact Or.inl rfl
            · exact Or.inl rfl
          next h2 => exact Or.inl rfl
          next h2 =>
            split
            next e1 e2 =>
              exact Or.inr ⟨cap, _, h1, h2, hv, rfl⟩
            next e1 e2 => exact Or.inl rfl
    next h4 => exact Or.inl rfl

/-- callTool never modifies the mapping, the subscription set or the server
name. -/
theorem callTool_fixed_fields (st : ToolManager) (request : CallRequest) :
    (st.callTool request).1.tools = st.tools ∧
    (st.callTool request).1.enabledToolSubscriptions =
      st.enabledToolSubscriptions ∧
    (st.callTool request).1.mcpServerName = st.mcpServerName := by
  simp only [ToolManager.callTool]
  split
  · exact ⟨rfl, rfl, rfl⟩
  next cap h1 =>
    split
    next h4 =>
      split
      · exact ⟨rfl, rfl, rfl⟩
      next args h5 =>
        split
        next diag hv => exact ⟨rfl, rfl, rfl⟩
        next u hv =>
          simp only [ToolManager.runHandler]
          split
          next f h2 =>
            split
            · exact ⟨rfl, rfl, rfl⟩
            · exact ⟨rfl, rfl, rfl⟩
          next h2 => exact ⟨rfl, rfl, rfl⟩
          next h2 =>
            split
            next entries hargs => exact ⟨rfl, rfl, rfl⟩
            next tag hargs => exact ⟨rfl, rfl, rfl⟩
    next h4 => exact ⟨rfl, rfl, rfl⟩

/-- C1 (counterexample): with dynamic discovery off the constructor does not
gate on readOnlyHint: in readOnly mode the delete tool, whose readOnlyHint is
false, still becomes enabled, and in readWrite mode the echo tool, whose
readOnlyHint is true, does not become enabled, contradicting the claim at
this input. -/
theorem c1_counterexample :
    decide ("delete" ∈ (ToolManager.make "srv"
        [echoCapability, deleteCapability]
        ⟨ToolMode.readOnly⟩ none).enabledTools) = true ∧
    decide (deleteCapability.definition.annotations.bind
        ToolAnnotations.readOnlyHint = some true) = false ∧
    decide ("echo" ∈ (ToolManager.make "srv"
        [echoCapability, deleteCapability]
        ⟨ToolMode.readWrite⟩ none).enabledTools) = false := by
  decide

/-- C1 (amended): when dynamic discovery is disabled the ToolManager
constructor enables every registered tool in readOnly mode and no tool at all
in readWrite mode, ignoring annotations; the claimed readOnlyHint gate is the
rule of the bundled McpServer variant's toolCanBeEnabled, stated in the last
conjunct. -/
theorem c1_mode_gating :
    (∀ (s : String) (caps : List ToolCapability) (mode : ToolMode) (n : String),
      n ∈ (ToolManager.make s caps ⟨mode⟩ none).enabledTools ↔
        (mode = ToolMode.readOnly ∧ ∃ c ∈ caps, c.definition.name = n)) ∧
    (∀ (s : String) (caps : List ToolCapability) (mode : ToolMode)
        (av : List String) (dopt : Option (List String)) (n : String),
      n ∈ (ToolManager.make s caps ⟨mode⟩
          (some ⟨false, av, dopt⟩)).enabledTools ↔
        (mode = ToolMode.readOnly ∧ ∃ c ∈ caps, c.definition.name = n)) ∧
    (∀ d : ToolDefinition,
      toolCanBeEnabled d ⟨ToolMode.readWrite⟩ = true ∧
        (toolCanBeEnabled d ⟨ToolMode.readOnly⟩ = true ↔
          d.annotations.bind ToolAnnotations.readOnlyHint = some true)) := by
  refine ⟨?_, ?_, ?_⟩
  · intro s caps mode n
    exact make_enabled_no_dyn s caps ⟨mode⟩ none rfl n
  · intro s caps mode av dopt n
    exact make_enabled_no_dyn s caps ⟨mode⟩ (some ⟨false, av, dopt⟩) rfl n
  · intro d
    constructor
    · rfl
    · simp only [toolCanBeEnabled]
      cases d.annotations with
      | none => simp
      | some a => simp

/-- C2 (counterexample): the registry starts with the trigger meta-tool
enabled, yet a disable entry naming dynamic_tool_trigger removes it from the
enabled-set: disabling a meta-tool is not a no-op. -/
theorem c2_counterexample :
    decide ("dynamic_tool_trigger" ∈ dynState.enabledTools) = true ∧
    decide ("dynamic_tool_trigger" ∈
      (dynState.callTool
        { name := "dynamic_tool_trigger"
          arguments := some (Args.toolsetsArg
            [{ name := "dynamic_tool_trigger"
               trigger := TriggerAction.disable }]) }).1.enabledTools) =
      false := by
  decide

/-- C2 (amended): with dynamic discovery enabled the two meta-tools are
entries of the mapping and start enabled, but the trigger meta-tool applies
disable entries to them like to any other tool: a disable entry naming a
meta-tool removes it from the enabled-set. -/
theorem c2_meta_tools :
    (∀ (s : String) (caps : List ToolCapability) (cfg : ToolsetConfig)
        (av : List String) (dopt : Option (List String)),
      mapGet (ToolManager.make s caps cfg (some ⟨true, av, dopt⟩)).tools
          dynamicToolListName = some dynamicToolListCapability ∧
      mapGet (ToolManager.make s caps cfg (some ⟨true, av, dopt⟩)).tools
          dynamicToolTriggerName = some dynamicToolTriggerCapability ∧
      dynamicToolListName ∈
        (ToolManager.make s caps cfg (some ⟨true, av, dopt⟩)).enabledTools ∧
      dynamicToolTriggerName ∈
        (ToolManager.make s caps cfg (some ⟨true, av, dopt⟩)).enabledTools) ∧
    (∀ (m : String) (en : List String),
      decide (dynamicToolTriggerName ∈ applyToolsets m en
        [⟨dynamicToolTriggerName, TriggerAction.disable⟩]) = false ∧
      decide (dynamicToolListName ∈ applyToolsets m en
        [⟨dynamicToolListName, TriggerAction.disable⟩]) = false) := by
  constructor
  · intro s caps cfg av dopt
    refine ⟨?_, ?_, ?_, ?_⟩
    · rw [make_dyn_tools]
      rw [mapGet_mapSet_ne _ _ _ _ (by decide), mapGet_mapSet_self]
    · rw [make_dyn_tools, mapGet_mapSet_self]
    · exact (make_dyn_enabled_iff s caps cfg av dopt _).2 (Or.inr (Or.inl rfl))
    · exact (make_dyn_enabled_iff s caps cfg av dopt _).2 (Or.inr (Or.inr rfl))
  · intro m en
    constructor
    · apply decide_eq_false
      intro hmem
      simp only [applyToolsets, List.foldl_cons, List.foldl_nil,
        applyToolset] at hmem
      rw [toInternalToolName_trigger m] at hmem
      exact self_not_mem_jsSetDelete en dynamicToolTriggerName hmem
    · apply decide_eq_false
      intro hmem
      simp only [applyToolsets, List.foldl_cons, List.foldl_nil,
        applyToolset] at hmem
      rw [toInternalToolName_list m] at hmem
      exact self_not_mem_jsSetDelete en dynamicToolListName hmem

/-- C5: listTools lists exactly the enabled entries of the mapping, in the
mapping insertion order, with externally qualified names, and never a
disabled entry; the embedding renders listTools as a pure function of the
state, so it has no effect on the mapping, the enabled-set or the
subscription set; the enable and disable steps of the trigger loop are
idempotent, so repeated enable/enable or disable/disable leaves the same
state and hence the same listing. -/
theorem c5_listTools_enabled_only :
    (∀ st : ToolManager,
      (st.listTools).tools.map (fun t => t.name) =
        (st.tools.filter (fun p => decide (p.1 ∈ st.enabledTools))).map
          (fun p => toExposedToolName st.mcpServerName p.2.definition.name)) ∧
    (∀ (m : String) (en : List String) (e : ToolsetEntry),
      applyToolsets m en [e, e] = applyToolsets m en [e]) := by
  constructor
  · intro st
    simp [ToolManager.listTools, List.map_map, Function.comp]
  · intro m en e
    obtain ⟨nm, tr⟩ := e
    cases tr with
    | enable =>
      simp only [applyToolsets, List.foldl_cons, List.foldl_nil, applyToolset]
      exact jsSetAdd_idem ..
    | disable =>
      simp only [applyToolsets, List.foldl_cons, List.foldl_nil, applyToolset]
      exact jsSetDelete_idem ..

/-- C3: callTool on a name whose internal form is not a key of the mapping
throws MethodNotFound with the Unknown tool message; on a known but disabled
name it throws MethodNotFound with the Tool not enabled message; the two
errors are distinct values for every pair of names, so the caller can tell
them apart. -/
theorem c3_unknown_vs_not_enabled :
    (∀ (st : ToolManager) (request : CallRequest),
      mapGet st.tools (toInternalToolName st.mcpServerName request.name) =
        none →
      st.callTool request =
        (st, CallOutcome.registryError
          { code := McpErrorCode.MethodNotFound
            message := "Unknown tool: " ++ request.name })) ∧
    (∀ (st : ToolManager) (request : CallRequest) (cap : ToolCapability),
      mapGet st.tools (toInternalToolName st.mcpServerName request.name) =
        some cap →
      toInternalToolName st.mcpServerName request.name ∉ st.enabledTools →
      st.callTool request =
        (st, CallOutcome.registryError
          { code := McpErrorCode.MethodNotFound
            message := "Tool not enabled: " ++ request.name })) ∧
    (∀ n m : String,
      (("Unknown tool: " ++ n : String) == "Tool not enabled: " ++ m) =
        false) := by
  refine ⟨?_, ?_, ?_⟩
  · intro st request h
    simp only [ToolManager.callTool, h]
  · intro st request cap h hen
    simp only [ToolManager.callTool, h, hen, if_false]
  · intro n m
    exact beq_eq_false_iff_ne.mpr (unknown_ne_notEnabled n m)

theorem c3_unknown_vs_not_enabled_witness :
    lockedState.callTool { name := "nope", arguments := none } =
      (lockedState, CallOutcome.registryError
        { code := McpErrorCode.MethodNotFound
          message := "Unknown tool: " ++ "nope" }) ∧
    lockedState.callTool { name := "echo", arguments := none } =
      (lockedState, CallOutcome.registryError
        { code := McpErrorCode.MethodNotFound
          message := "Tool not enabled: " ++ "echo" }) :=
  ⟨c3_unknown_vs_not_enabled.1 lockedState
      { name := "nope", arguments := none } rfl,
    c3_unknown_vs_not_enabled.2.1 lockedState
      { name := "echo", arguments := none } echoCapability rfl (by decide)⟩

/-- C4: a validated batch on the trigger meta-tool is folded over the
enabled-set in array order, the returned state, snapshot and notification
payload all reflect the state after the whole batch, the notification
events are exactly one per registered callback, and disable-then-enable of
the same name leaves it enabled (later entries override earlier ones). -/
theorem c4_trigger_batch (st : ToolManager) (request : CallRequest)
    (cap : ToolCapability) (entries : List ToolsetEntry)
    (en : List String) (a m : String)
    (h1 : mapGet st.tools (toInternalToolName st.mcpServerName request.name) =
      some cap)
    (h2 : cap.handler = Handler.dynamicTrigger)
    (h3 : cap.definition.inputSchema = InputSchema.triggerSchema)
    (h4 : toInternalToolName st.mcpServerName request.name ∈ st.enabledTools)
    (h5 : request.arguments = some (Args.toolsetsArg entries))
    (h6 : entries.all (fun e => validToolsetName st e.name) = true) :
    st.callTool request =
      (st.applyTrigger entries,
        CallOutcome.success
          (ToolResult.snapshotResult (snapshotOf (st.applyTrigger entries)))
          ((st.applyTrigger entries).notifyEnabledToolsChanged)) ∧
    ((st.applyTrigger entries).notifyEnabledToolsChanged).map Prod.fst =
      st.enabledToolSubscriptions ∧
    toInternalToolName m a ∈
      applyToolsets m en
        [⟨a, TriggerAction.disable⟩, ⟨a, TriggerAction.enable⟩] := by
  refine ⟨callTool_trigger_spec st request cap entries h1 h2 h3 h4 h5 h6, ?_, ?_⟩
  · simp [ToolManager.notifyEnabledToolsChanged, List.map_map,
      Function.comp_def, ToolManager.applyTrigger]
  · simp only [applyToolsets, List.foldl_cons, List.foldl_nil, applyToolset]
    exact self_mem_jsSetAdd ..

theorem c4_trigger_batch_witness :
    dynState.callTool
        { name := "dynamic_tool_trigger"
          arguments := some (Args.toolsetsArg echoToggleBatch) } =
      (dynState.applyTrigger echoToggleBatch,
        CallOutcome.success
          (ToolResult.snapshotResult
            (snapshotOf (dynState.applyTrigger echoToggleBatch)))
          ((dynState.applyTrigger echoToggleBatch).notifyEnabledToolsChanged)) ∧
    ((dynState.applyTrigger echoToggleBatch).notifyEnabledToolsChanged).map
        Prod.fst = dynState.enabledToolSubscriptions ∧
    toInternalToolName "srv" "echo" ∈
      applyToolsets "srv" dynState.enabledTools
        [⟨"echo", TriggerAction.disable⟩, ⟨"echo", TriggerAction.enable⟩] :=
  c4_trigger_batch dynState
    { name := "dynamic_tool_trigger"
      arguments := some (Args.toolsetsArg echoToggleBatch) }
    dynamicToolTriggerCapability echoToggleBatch dynState.enabledTools
    "echo" "srv" rfl rfl rfl (by decide) rfl (by decide)

/-- C6: after construction, for every capability list, mode and discovery
configuration, the enabled-set only holds mapping keys, and the
trigger-handler capabilities all carry the trigger schema whenever the
supplied capabilities use plain handlers; both properties are preserved by
callTool (in particular by every trigger meta-tool invocation), and the
subscription operations and setMcpServerName touch neither the mapping nor
the enabled-set. -/
theorem c6_enabled_subset_invariant :
    (∀ (s : String) (caps : List ToolCapability) (cfg : ToolsetConfig)
        (dyn : Option DynamicToolDiscoveryOptions),
      enabledSubset (ToolManager.make s caps cfg dyn)) ∧
    (∀ (s : String) (caps : List ToolCapability) (cfg : ToolsetConfig)
        (dyn : Option DynamicToolDiscoveryOptions),
      (∀ c ∈ caps, c.handler.isDynamicTrigger = false) →
      metaHandlersWF (ToolManager.make s caps cfg dyn)) ∧
    (∀ (st : ToolManager) (request : CallRequest),
      enabledSubset st → metaHandlersWF st →
      enabledSubset (st.callTool request).1 ∧
        metaHandlersWF (st.callTool request).1) ∧
    (∀ (st : ToolManager) (cb : Nat) (nm : String),
      (st.onEnabledToolsChanged cb).tools = st.tools ∧
      (st.onEnabledToolsChanged cb).enabledTools = st.enabledTools ∧
      (st.offEnabledToolsChanged cb).tools = st.tools ∧
      (st.offEnabledToolsChanged cb).enabledTools = st.enabledTools ∧
      (st.setMcpServerName nm).1.tools = st.tools ∧
      (st.setMcpServerName nm).1.enabledTools = st.enabledTools) := by
  refine ⟨?_, ?_, ?_, ?_⟩
  · intro s caps cfg dyn
    cases dyn with
    | none =>
      intro n hn
      rw [make_no_dyn_tools s caps cfg none rfl]
      obtain ⟨hmode, hc⟩ := (make_enabled_no_dyn s caps cfg none rfl n).mp hn
      exact (registerTools_isSome caps n).mpr hc
    | some d =>
      obtain ⟨e, av, dopt⟩ := d
      cases e with
      | false =>
        intro n hn
        rw [make_no_dyn_tools s caps cfg (some ⟨false, av, dopt⟩) rfl]
        obtain ⟨hmode, hc⟩ :=
          (make_enabled_no_dyn s caps cfg (some ⟨false, av, dopt⟩) rfl n).mp hn
        exact (registerTools_isSome caps n).mpr hc
      | true =>
        intro n hn
        rw [make_dyn_tools s caps cfg av dopt]
        rw [isSome_mapGet_mapSet, isSome_mapGet_mapSet]
        rcases (make_dyn_enabled_iff s caps cfg av dopt n).mp hn with
          ⟨hd, hs⟩ | h | h
        · right
          right
          exact hs
        · right
          left
          exact h
        · left
          exact h
  · intro s caps cfg dyn hcaps
    have hreg : ∀ p ∈ registerTools caps,
        p.2.handler.isDynamicTrigger = true →
        p.2.definition.inputSchema.isTriggerSchema = true := by
      intro p hp ht
      rcases mem_register caps [] p hp with h | h
      · simp at h
      · exact absurd ht (by rw [hcaps p.2 h]; simp)
    cases dyn with
    | none =>
      intro p hp
      rw [make_no_dyn_tools s caps cfg none rfl] at hp
      exact hreg p hp
    | some d =>
      obtain ⟨e, av, dopt⟩ := d
      cases e with
      | false =>
        intro p hp
        rw [make_no_dyn_tools s caps cfg (some ⟨false, av, dopt⟩) rfl] at hp
        exact hreg p hp
      | true =>
        intro p hp
        rw [make_dyn_tools s caps cfg av dopt] at hp
        rcases mem_mapSet _ _ _ _ hp with h | h
        · intro ht
          rw [h]
          rfl
        · rcases mem_mapSet _ _ _ _ h with h2 | h2
          · intro ht
            rw [h2] at ht
            exact absurd ht (by simp [dynamicToolListCapability,
              Handler.isDynamicTrigger])
          · exact hreg p h2
  · intro st request hsub hwf
    rcases callTool_state st request with h | ⟨cap, entries, h1, h2, hv, heq⟩
    · rw [h]
      exact ⟨hsub, hwf⟩
    · constructor
      · rw [heq]
        intro n hn
        have hcapmem := mapGet_mem _ _ _ h1
        have hschema : cap.definition.inputSchema = InputSchema.triggerSchema :=
          isTriggerSchema_eq _ (hwf _ hcapmem (by rw [h2]; rfl))
        rw [hschema] at hv
        have hall := validateArgs_trigger_all st entries hv
        exact applyToolsets_subset st entries st.enabledTools hall hsub n hn
      · rw [heq]
        intro p hp
        exact hwf p hp
  · intro st cb nm
    exact ⟨rfl, rfl, rfl, rfl, rfl, rfl⟩

theorem c6_enabled_subset_invariant_witness :
    enabledSubset plainState ∧ metaHandlersWF plainState ∧
    enabledSubset dynState ∧ metaHandlersWF dynState ∧
    (enabledSubset
        (dynState.callTool
          { name := "dynamic_tool_trigger"
            arguments := some (Args.toolsetsArg echoToggleBatch) }).1 ∧
      metaHandlersWF
        (dynState.callTool
          { name := "dynamic_tool_trigger"
            arguments := some (Args.toolsetsArg echoToggleBatch) }).1) :=
  ⟨c6_enabled_subset_invariant.1 "srv"
      [echoCapability, guardCapability, failingCapability]
      ⟨ToolMode.readOnly⟩ none,
    c6_enabled_subset_invariant.2.1 "srv"
      [echoCapability, guardCapability, failingCapability]
      ⟨ToolMode.readOnly⟩ none (by decide),
    by unfold enabledSubset; decide, by unfold metaHandlersWF; decide,
    c6_enabled_subset_invariant.2.2.1 dynState
      { name := "dynamic_tool_trigger"
        arguments := some (Args.toolsetsArg echoToggleBatch) }
      (by unfold enabledSubset; decide) (by unfold metaHandlersWF; decide)⟩

/-- C7: on a known enabled tool, callTool throws InvalidParams when the
arguments field is absent or null, throws InvalidParams carrying the
validation diagnostic when the arguments fail the schema, and otherwise
invokes the stored handler on the validated arguments: a plain handler's
success is returned unchanged and its failure propagates unwrapped. -/
theorem c7_callTool_validation (st : ToolManager) (request : CallRequest)
    (cap : ToolCapability)
    (h1 : mapGet st.tools (toInternalToolName st.mcpServerName request.name) =
      some cap)
    (h4 : toInternalToolName st.mcpServerName request.name ∈ st.enabledTools) :
    (request.arguments = none →
      st.callTool request =
        (st, CallOutcome.registryError
          { code := McpErrorCode.InvalidParams
            message := "Invalid parameters: undefined" })) ∧
    (∀ args diag, request.arguments = some args →
      validateArgs st cap.definition.inputSchema args = Except.error diag →
      st.callTool request =
        (st, CallOutcome.registryError
          { code := McpErrorCode.InvalidParams
            message := "Invalid parameters: " ++ diag })) ∧
    (∀ args, request.arguments = some args →
      validateArgs st cap.definition.inputSchema args = Except.ok () →
      st.callTool request = st.runHandler cap args) ∧
    (∀ (f : Args → Except String ToolResult) (args : Args) (r : ToolResult),
      cap.handler = Handler.pure f → f args = Except.ok r →
      st.runHandler cap args = (st, CallOutcome.success r [])) ∧
    (∀ (f : Args → Except String ToolResult) (args : Args) (e : String),
      cap.handler = Handler.pure f → f args = Except.error e →
      st.runHandler cap args = (st, CallOutcome.handlerRaised e)) := by
  refine ⟨?_, ?_, ?_, ?_, ?_⟩
  · intro h5
    simp only [ToolManager.callTool, h1, h4, if_true, h5]
  · intro args diag h5 hv
    simp only [ToolManager.callTool, h1, h4, if_true, h5, hv]
  · intro args h5 hv
    simp only [ToolManager.callTool, h1, h4, if_true, h5, hv]
  · intro f args r h2 hf
    simp only [ToolManager.runHandler, h2, hf]
  · intro f args e h2 hf
    simp only [ToolManager.runHandler, h2, hf]

theorem c7_callTool_validation_witness :
    plainState.callTool { name := "guard", arguments := none } =
      (plainState, CallOutcome.registryError
        { code := McpErrorCode.InvalidParams
          message := "Invalid parameters: undefined" }) ∧
    plainState.callTool
        { name := "guard", arguments := some (Args.otherArg 1) } =
      (plainState, CallOutcome.registryError
        { code := McpErrorCode.InvalidParams
          message := "Invalid parameters: " ++ "Expected object" }) ∧
    plainState.callTool
        { name := "guard", arguments := some (Args.otherArg 0) } =
      plainState.runHandler guardCapability (Args.otherArg 0) ∧
    plainState.runHandler guardCapability (Args.otherArg 0) =
      (plainState,
        CallOutcome.success (ToolResult.textResult "guarded") []) ∧
    plainState.runHandler failingCapability (Args.otherArg 0) =
      (plainState, CallOutcome.handlerRaised "boom") :=
  ⟨(c7_callTool_validation plainState
      { name := "guard", arguments := none } guardCapability rfl
      (by decide)).1 rfl,
    (c7_callTool_validation plainState
      { name := "guard", arguments := some (Args.otherArg 1) } guardCapability
      rfl (by decide)).2.1 (Args.otherArg 1) "Expected object" rfl rfl,
    (c7_callTool_validation plainState
      { name := "guard", arguments := some (Args.otherArg 0) } guardCapability
      rfl (by decide)).2.2.1 (Args.otherArg 0) rfl rfl,
    (c7_callTool_validation plainState
      { name := "guard", arguments := some (Args.otherArg 0) } guardCapability
      rfl (by decide)).2.2.2.1
      (fun _ => Except.ok (ToolResult.textResult "guarded")) (Args.otherArg 0)
      (ToolResult.textResult "guarded") rfl rfl,
    (c7_callTool_validation plainState
      { name := "failing", arguments := some (Args.otherArg 0) }
      failingCapability rfl (by decide)).2.2.2.2
      (fun _ => Except.error "boom") (Args.otherArg 0) "boom" rfl rfl⟩

/-- C8: a trigger batch holding at least one name that fails the schema
refinement makes callTool throw InvalidParams with the Invalid toolset name
diagnostic before the handler runs, and the returned state is exactly the
input state: no entry of the batch is applied. -/
theorem c8_invalid_toolset_name (st : ToolManager) (request : CallRequest)
    (cap : ToolCapability) (entries : List ToolsetEntry)
    (h1 : mapGet st.tools (toInternalToolName st.mcpServerName request.name) =
      some cap)
    (h3 : cap.definition.inputSchema = InputSchema.triggerSchema)
    (h4 : toInternalToolName st.mcpServerName request.name ∈ st.enabledTools)
    (h5 : request.arguments = some (Args.toolsetsArg entries))
    (h6 : ∃ e ∈ entries, validToolsetName st e.name = false) :
    st.callTool request =
      (st, CallOutcome.registryError
        { code := McpErrorCode.InvalidParams
          message := "Invalid parameters: " ++ "Invalid toolset name" }) := by
  have hall : entries.all (fun e => validToolsetName st e.name) = false := by
    cases hv : entries.all (fun e => validToolsetName st e.name) with
    | false => rfl
    | true =>
      obtain ⟨e, he, hf⟩ := h6
      have := List.all_eq_true.mp hv e he
      rw [hf] at this
      exact absurd this (by simp)
  simp only [ToolManager.callTool, h1, h4, if_true, h5, h3, validateArgs,
    hall, Bool.false_eq_true, if_false]

theorem c8_invalid_toolset_name_witness :
    dynState.callTool
        { name := "dynamic_tool_trigger"
          arguments := some (Args.toolsetsArg
            [{ name := "nonexistent", trigger := TriggerAction.enable }]) } =
      (dynState, CallOutcome.registryError
        { code := McpErrorCode.InvalidParams
          message := "Invalid parameters: " ++ "Invalid toolset name" }) :=
  c8_invalid_toolset_name dynState
    { name := "dynamic_tool_trigger"
      arguments := some (Args.toolsetsArg
        [{ name := "nonexistent", trigger := TriggerAction.enable }]) }
    dynamicToolTriggerCapability
    [{ name := "nonexistent", trigger := TriggerAction.enable }]
    rfl rfl (by decide) rfl (by decide)

/-- C9: with dynamic discovery enabled, a name is initially enabled exactly
when it is listed in defaultEnabledToolsets and is a key of the final
mapping, or it is one of the two force-enabled meta-tools; listed names
absent from the mapping are ignored. -/
theorem c9_initial_enabled_set (s : String) (caps : List ToolCapability)
    (cfg : ToolsetConfig) (av : List String) (defaults : List String)
    (n : String) :
    n ∈ (ToolManager.make s caps cfg
        (some ⟨true, av, some defaults⟩)).enabledTools ↔
      ((n ∈ defaults ∧
        (mapGet (ToolManager.make s caps cfg
          (some ⟨true, av, some defaults⟩)).tools n).isSome = true) ∨
        n = dynamicToolListName ∨ n = dynamicToolTriggerName) := by
  rw [make_dyn_enabled_iff, make_dyn_tools]
  simp only [Option.getD_some]
  constructor
  · rintro (⟨hd, hs⟩ | h)
    · refine Or.inl ⟨hd, ?_⟩
      rw [isSome_mapGet_mapSet, isSome_mapGet_mapSet]
      exact Or.inr (Or.inr hs)
    · exact Or.inr h
  · rintro (⟨hd, hs⟩ | h)
    · rw [isSome_mapGet_mapSet, isSome_mapGet_mapSet] at hs
      rcases hs with h1 | h1 | h1
      · exact Or.inr (Or.inr h1)
      · exact Or.inr (Or.inl h1)
      · exact Or.inl ⟨hd, h1⟩
    · exact Or.inr h

/-- C10: a successful trigger invocation emits the notification
unconditionally, exactly once per registered callback, with no change
detection (the empty batch leaves the enabled-set unchanged yet still
notifies), and the notification payload is the listTools result of the
post-batch state. -/
theorem c10_notification_once (st : ToolManager) (request : CallRequest)
    (cap : ToolCapability) (entries : List ToolsetEntry)
    (h1 : mapGet st.tools (toInternalToolName st.mcpServerName request.name) =
      some cap)
    (h2 : cap.handler = Handler.dynamicTrigger)
    (h3 : cap.definition.inputSchema = InputSchema.triggerSchema)
    (h4 : toInternalToolName st.mcpServerName request.name ∈ st.enabledTools)
    (h5 : request.arguments = some (Args.toolsetsArg entries))
    (h6 : entries.all (fun e => validToolsetName st e.name) = true) :
    (st.callTool request).2 =
      CallOutcome.success
        (ToolResult.snapshotResult (snapshotOf (st.applyTrigger entries)))
        ((st.applyTrigger entries).enabledToolSubscriptions.map
          (fun cb => (cb, (st.applyTrigger entries).listTools))) ∧
    (st.applyTrigger entries).enabledToolSubscriptions =
      st.enabledToolSubscriptions ∧
    ((st.applyTrigger entries).notifyEnabledToolsChanged).length =
      st.enabledToolSubscriptions.length ∧
    applyToolsets st.mcpServerName st.enabledTools [] = st.enabledTools := by
  refine ⟨?_, rfl, ?_, rfl⟩
  · rw [callTool_trigger_spec st request cap entries h1 h2 h3 h4 h5 h6]
    rfl
  · simp only [ToolManager.notifyEnabledToolsChanged, List.length_map]
    rfl

theorem c10_notification_once_witness :
    (dynStateSub.callTool
        { name := "dynamic_tool_trigger"
          arguments := some (Args.toolsetsArg []) }).2 =
      CallOutcome.success
        (ToolResult.snapshotResult (snapshotOf (dynStateSub.applyTrigger [])))
        ((dynStateSub.applyTrigger []).enabledToolSubscriptions.map
          (fun cb => (cb, (dynStateSub.applyTrigger []).listTools))) ∧
    (dynStateSub.applyTrigger []).enabledToolSubscriptions =
      dynStateSub.enabledToolSubscriptions ∧
    ((dynStateSub.applyTrigger []).notifyEnabledToolsChanged).length =
      dynStateSub.enabledToolSubscriptions.length ∧
    applyToolsets dynStateSub.mcpServerName dynStateSub.enabledTools [] =
      dynStateSub.enabledTools :=
  c10_notification_once dynStateSub
    { name := "dynamic_tool_trigger", arguments := some (Args.toolsetsArg []) }
    dynamicToolTriggerCapability [] rfl rfl rfl (by decide) rfl rfl

end Mcp
